import Mathlib

/-!
Verification development for the myncer sync / song-matching engine.

Strings are modelled as `List Char`.  Go `float64` arithmetic is modelled
exactly over `ℚ`; none of the verified properties depends on rounding.
External library functions (x/text transform chain, fuzzysearch Levenshtein,
Go regexp engine) are modelled from their documented behaviour, restricted
where noted; repository functions are translated statement by statement.
-/

abbrev Str := List Char

namespace Matching

/-- Character class of Go regexp `\s` (plus `\v`, which Go's
`unicode.IsSpace`-based `TrimSpace`/`Fields` also treat as space; the
difference is immaterial after the non-alphanumeric pass). -/
def wsChar (c : Char) : Bool :=
  c = ' ' || c = '\t' || c = '\n' || c = '\x0b' || c = '\x0c' || c = '\r'

/-- Character class `[a-z0-9]` used by `nonAlphanumericRegex`. -/
def alnumLower (c : Char) : Bool :=
  ('a' ≤ c && c ≤ 'z') || ('0' ≤ c && c ≤ '9')

/-- Model of `strings.ToLower` (stage 1 of `Clean`), restricted to ASCII;
the non-ASCII letters it would lower are either handled by the diacritics
table below or removed by the non-alphanumeric pass. -/
def goToLower (c : Char) : Char :=
  if 'A' ≤ c ∧ c ≤ 'Z' then Char.ofNat (c.toNat + 32) else c

/-- Modelled from the library behaviour of
`transform.Chain(norm.NFD, runes.Remove(runes.In(unicode.Mn)), norm.NFC)`
(stage 2 of `Clean`): a precomposed Latin letter is replaced by its base
letter; representative table, identity on ASCII. -/
def deaccent (c : Char) : Char :=
  if c = 'á' ∨ c = 'à' ∨ c = 'â' ∨ c = 'ä' ∨ c = 'ã' then 'a'
  else if c = 'é' ∨ c = 'è' ∨ c = 'ê' ∨ c = 'ë' then 'e'
  else if c = 'í' ∨ c = 'ì' ∨ c = 'î' ∨ c = 'ï' then 'i'
  else if c = 'ó' ∨ c = 'ò' ∨ c = 'ô' ∨ c = 'ö' ∨ c = 'õ' then 'o'
  else if c = 'ú' ∨ c = 'ù' ∨ c = 'û' ∨ c = 'ü' then 'u'
  else if c = 'ñ' then 'n'
  else if c = 'ç' then 'c'
  else c

/-- Combining marks (Unicode class Mn, representative set): a free-standing
mark is removed by the transform chain. -/
def isMark (c : Char) : Bool :=
  c = '̀' || c = '́' || c = '̂' || c = '̃' || c = '̈'

/-- Stage 2 of `Clean`: strip diacritics. -/
def stripDiacritics (l : Str) : Str :=
  (l.map deaccent).filter (fun c => !isMark c)

/-- Body test for `featRegex`: after the opening bracket the segment must be
`\s*(feat|ft)\.?\s*` followed by at least one character (the regex is
case-insensitive; `Clean` applies it to an already lowercased string). -/
def featBody (body : Str) : Bool :=
  let b := body.dropWhile (fun c => wsChar c)
  let rest :=
    if b.take 4 = [ 'f', 'e', 'a', 't' ] then some (b.drop 4)
    else if b.take 2 = [ 'f', 't' ] then some (b.drop 2)
    else none
  match rest with
  | none => false
  | some r =>
    let r1 := if r.head? = some '.' then r.tail else r
    let r2 := r1.dropWhile (fun c => wsChar c)
    !r2.isEmpty

/-- Model of `featRegex.ReplaceAllString(s, "")` (stage 3 of `Clean`):
remove bracketed feat/ft annotations.  The fuel argument (initialised to the
string length, which always suffices) only discharges termination; on
bracket-free input the function is the identity for every fuel. -/
def removeFeatGo : Nat → Str → Str
  | 0, l => l
  | _, [] => []
  | fuel + 1, c :: cs =>
    if c = '(' ∨ c = '[' then
      let close := if c = '(' then ')' else ']'
      let body := cs.takeWhile (fun d => d ≠ close)
      match cs.dropWhile (fun d => d ≠ close) with
      | [] => c :: removeFeatGo fuel cs
      | _ :: rest => if featBody body then removeFeatGo fuel rest
                     else c :: removeFeatGo fuel cs
    else c :: removeFeatGo fuel cs

def removeFeat (l : Str) : Str := removeFeatGo l.length l

def tagKeywords : List Str :=
  [ "remix".toList, "edit".toList, "live".toList, "version".toList,
    "explicit".toList, "clean".toList, "instrumental".toList,
    "deluxe".toList, "mastered".toList ]

def containsKw (l : Str) : Bool := tagKeywords.any (fun k => decide (k <:+: l))

/-- Scan for the first `)`/`]` that is preceded (since the opening bracket)
by one of the tag keywords, mirroring the lazy `.*?kw.*?[\)\]]` of
`tagsRegex`; `.` does not cross a newline.  Returns the remainder after the
closing bracket. -/
def findTagClose (pre : Str) : Str → Option Str
  | [] => none
  | c :: cs =>
    if c = '\n' then none
    else if (c = ')' ∨ c = ']') ∧ containsKw pre.reverse then some cs
    else findTagClose (c :: pre) cs

/-- Model of `tagsRegex.ReplaceAllString(s, "")` (stage 4 of `Clean`):
remove bracketed tag annotations (remix, live, ...).  Fuelled like
`removeFeat`; identity on bracket-free input for every fuel. -/
def removeTagsGo : Nat → Str → Str
  | 0, l => l
  | _, [] => []
  | fuel + 1, c :: cs =>
    if c = '(' ∨ c = '[' then
      match findTagClose [] cs with
      | some rest => removeTagsGo fuel rest
      | none => c :: removeTagsGo fuel cs
    else c :: removeTagsGo fuel cs

def removeTags (l : Str) : Str := removeTagsGo l.length l

/-- Model of `nonAlphanumericRegex.ReplaceAllString(s, " ")` (stage 5):
each maximal run of characters outside `[a-z0-9\s]` becomes one space.
The flag records whether the previous character was inside such a run. -/
def collapseNonAlnumAux : Bool → Str → Str
  | _, [] => []
  | inRun, c :: cs =>
    if alnumLower c || wsChar c then c :: collapseNonAlnumAux false cs
    else if inRun then collapseNonAlnumAux true cs
    else ' ' :: collapseNonAlnumAux true cs

def collapseNonAlnum (l : Str) : Str := collapseNonAlnumAux false l

/-- Model of `extraWhitespaceRegex.ReplaceAllString(s, " ")` (stage 6):
each maximal run of whitespace becomes one space. -/
def collapseWSAux : Bool → Str → Str
  | _, [] => []
  | inRun, c :: cs =>
    if wsChar c then
      if inRun then collapseWSAux true cs else ' ' :: collapseWSAux true cs
    else c :: collapseWSAux false cs

def collapseWS (l : Str) : Str := collapseWSAux false l

/-- Model of `strings.TrimSpace` (stage 7). -/
def trimSpaces (l : Str) : Str :=
  ((l.dropWhile (fun c => wsChar c)).reverse.dropWhile (fun c => wsChar c)).reverse

/-- `Clean` normalizes a metadata string: lowercase, strip diacritics,
remove feat/ft annotations, remove tag annotations, replace
non-alphanumeric runs by a space, collapse whitespace, trim
(`matching/cleaner.go`). -/
def Clean (l : Str) : Str :=
  trimSpaces (collapseWS (collapseNonAlnum (removeTags (removeFeat
    (stripDiacritics (l.map goToLower))))))

/-- One step of the Levenshtein recurrence: given `fxs = lev xs`, compute
`lev (x :: xs)` by recursion on the second string. -/
def levCons (x : Char) (fxs : Str → Nat) : Str → Nat
  | [] => fxs [] + 1
  | y :: ys =>
    min (min (fxs (y :: ys) + 1) (levCons x fxs ys + 1))
        (fxs ys + (if x = y then 0 else 1))

/-- Levenshtein edit distance, the recurrence computed by
`fuzzy.LevenshteinDistance` (external library): deleting, inserting, or
substituting one character each cost 1. -/
def lev : Str → Str → Nat
  | [], ys => ys.length
  | x :: xs, ys => levCons x (lev xs) ys

/-- `normalizedLevenshtein` (`song_matcher.go`): similarity ratio 0–100,
100 for two empty strings. -/
def normalizedLevenshtein (s1 s2 : Str) : ℚ :=
  if max s1.length s2.length = 0 then 100
  else (1 - (lev s1 s2 : ℚ) / ((max s1.length s2.length : Nat) : ℚ)) * 100

/-- Model of `strings.Fields`: the maximal runs of non-whitespace
characters.  The accumulator holds the current word reversed. -/
def fieldsAux : Str → Str → List Str
  | acc, [] => if acc.isEmpty then [] else [ acc.reverse ]
  | acc, c :: cs =>
    if wsChar c then
      if acc.isEmpty then fieldsAux [] cs else acc.reverse :: fieldsAux [] cs
    else fieldsAux (c :: acc) cs

def fields (l : Str) : List Str := fieldsAux [] l

/-- `tokenSetRatio` (`song_matcher.go`): intersection-over-union of the two
word sets, scaled to 0–100; 100 when both sets are empty, 0 when exactly
one is.  Go's `core.Set` (a hash map) is modelled by deduplicated lists:
the cardinality of the intersection is the number of distinct words in
both, the cardinality of the union the number of distinct words in
either. -/
def tokenSetRatio (s1 s2 : Str) : ℚ :=
  if (fields s1).dedup = [] ∧ (fields s2).dedup = [] then 100
  else if (fields s1).dedup = [] ∨ (fields s2).dedup = [] then 0
  else
    (((fields s1).dedup.filter (fun w => w ∈ (fields s2).dedup)).length : ℚ) /
      ((((fields s1).dedup ++ (fields s2).dedup).dedup).length : ℚ) * 100

/-- A song record: name, ordered artist list, album, and the optional exact
external identifier (ISRC) carried by its spec (`core.Song`). -/
structure Song where
  name : Str
  artistNames : List Str
  album : Str
  isrc : Str
deriving DecidableEq, Repr

/-- `strings.Join(names, " ")`. -/
def joinSpace (names : List Str) : Str := List.intercalate [ ' ' ] names

/-- Title component of the score: normalized edit distance of the cleaned
names. -/
def titleScore (songA songB : Song) : ℚ :=
  normalizedLevenshtein (Clean songA.name) (Clean songB.name)

/-- Artist component of the score: token-set ratio of the cleaned,
space-joined artist lists. -/
def artistScore (songA songB : Song) : ℚ :=
  tokenSetRatio (Clean (joinSpace songA.artistNames))
    (Clean (joinSpace songB.artistNames))

/-- Album component of the score: normalized edit distance of the cleaned
album names. -/
def albumScore (songA songB : Song) : ℚ :=
  normalizedLevenshtein (Clean songA.album) (Clean songB.album)

/-- The ISRC short-circuit guard: both songs carry the same non-empty exact
external identifier. -/
def isrcMatch (songA songB : Song) : Prop :=
  songA.isrc ≠ [] ∧ songA.isrc = songB.isrc

instance (songA songB : Song) : Decidable (isrcMatch songA songB) := by
  unfold isrcMatch; infer_instance

/-- The title weight of the weighted sum: reduced from `0.45` to `0.30`
when both (cleaned) album strings are present but score below 70 (in the
Go source the guard reads the cleaned album strings as
`albumA`/`albumB`). -/
def titleWeight (songA songB : Song) : ℚ :=
  if Clean songA.album ≠ [] ∧ Clean songB.album ≠ [] ∧ albumScore songA songB < 70 then
    3 / 10
  else 9 / 20

/-- `CalculateSimilarity` (`server/matching/song_matcher.go`, current
version): ISRC short-circuit, then weighted fuzzy match with a penalty
branch returning `artistScore * 0.5` when the artist similarity is below
50, and otherwise the weighted sum with the conditional title weight.
`0.45 = 9/20`, `0.10 = 1/10`, `0.5 = 1/2`, `0.30 = 3/10`. -/
def CalculateSimilarity (songA songB : Song) : ℚ :=
  if isrcMatch songA songB then 100
  else if artistScore songA songB < 50 then artistScore songA songB * (1 / 2)
  else
    titleScore songA songB * titleWeight songA songB +
      artistScore songA songB * (9 / 20) + albumScore songA songB * (1 / 10)

/-- `AreDuplicates` (`song_matcher.go`). -/
def AreDuplicates (songA songB : Song) (threshold : ℚ) : Bool :=
  threshold ≤ CalculateSimilarity songA songB

/-- Loop body of `DeduplicateSongs`: walk the input keeping the running
`uniqueSongs` accumulator; a song is dropped when it duplicates some
already-kept song. -/
def dedupGo (threshold : ℚ) : List Song → List Song → List Song
  | [], uniqueSongs => uniqueSongs
  | song :: rest, uniqueSongs =>
    if uniqueSongs.any (fun u => AreDuplicates song u threshold) then
      dedupGo threshold rest uniqueSongs
    else
      dedupGo threshold rest (uniqueSongs ++ [ song ])

/-- `DeduplicateSongs` (`song_matcher.go`); the Go function also returns an
always-nil error, omitted here. -/
def DeduplicateSongs (songs : List Song) (threshold : ℚ) : List Song :=
  dedupGo threshold songs []

/-- The deduplication rule as the spec words it: a song is kept if and only
if its similarity score against every earlier kept song is strictly below
the threshold. -/
def dedupSpecGo (threshold : ℚ) : List Song → List Song → List Song
  | [], kept => kept
  | song :: rest, kept =>
    if kept.all (fun u => CalculateSimilarity song u < threshold) then
      dedupSpecGo threshold rest (kept ++ [ song ])
    else
      dedupSpecGo threshold rest kept

def dedupSpec (songs : List Song) (threshold : ℚ) : List Song :=
  dedupSpecGo threshold songs []

end Matching

namespace MatchingV0

open Matching (titleScore artistScore albumScore isrcMatch)

/-- `CalculateSimilarity`, the plain-weighted-sum variant of the matcher
also present in the source (`src/unnamed/part_000`): fixed weights
45% title + 45% artist + 10% album, no penalty branch. -/
def CalculateSimilarity (songA songB : Matching.Song) : ℚ :=
  if isrcMatch songA songB then 100
  else
    titleScore songA songB * (9 / 20) + artistScore songA songB * (9 / 20) +
      albumScore songA songB * (1 / 10)

end MatchingV0

namespace CreateSync

/-- A `myncer_pb.MusicSource`: provider enum (0 = DATASOURCE_UNSPECIFIED)
and playlist id. -/
structure MusicSource where
  datasource : Nat
  playlistId : Str
deriving DecidableEq, Repr

/-- Per-source key `fmt.Sprintf("%d:%s", datasource, playlistId)`. -/
def sourceKey (s : MusicSource) : Str :=
  (Nat.repr s.datasource).toList ++ ':' :: s.playlistId

/-- Lexicographic string comparison: the order `sort.Strings` sorts by
(byte-wise comparison, which for UTF-8 agrees with code-point order). -/
def strLe : Str → Str → Bool
  | [], _ => true
  | _ :: _, [] => false
  | a :: as, b :: bs =>
    if a < b then true else if b < a then false else strLe as bs

/-- `strLe` as a relation, for the sorting lemmas. -/
def strLeRel (a b : Str) : Prop := strLe a b = true

instance : DecidableRel strLeRel := fun a b => by unfold strLeRel; infer_instance

instance : IsTotal Str strLeRel where
  total := by
    intro a b
    induction a generalizing b with
    | nil => left; rfl
    | cons x xs ih =>
      cases b with
      | nil => right; rfl
      | cons y ys =>
        rcases lt_trichotomy x y with h | h | h
        · left; simp [strLeRel, strLe, h]
        · subst h
          rcases ih ys with h' | h'
          · left; simp [strLeRel, strLe, lt_irrefl] at h' ⊢; exact h'
          · right; simp [strLeRel, strLe, lt_irrefl] at h' ⊢; exact h'
        · right; simp [strLeRel, strLe, h, not_lt.mpr h.le, not_lt_of_lt h]

instance : IsTrans Str strLeRel where
  trans := by
    intro a b c hab hbc
    induction a generalizing b c with
    | nil => rfl
    | cons x xs ih =>
      cases b with
      | nil => simp [strLeRel, strLe] at hab
      | cons y ys =>
        cases c with
        | nil => simp [strLeRel, strLe] at hbc
        | cons z zs =>
          simp only [strLeRel, strLe] at hab hbc ⊢
          rcases lt_trichotomy x y with hxy | hxy | hxy
          · rcases lt_trichotomy y z with hyz | hyz | hyz
            · simp [hxy.trans hyz]
            · subst hyz; simp [hxy]
            · simp [hyz, not_lt_of_lt hyz] at hbc
          · subst hxy
            rcases lt_trichotomy x z with hyz | hyz | hyz
            · simp [hyz]
            · subst hyz
              simp only [lt_irrefl, if_false] at hab hbc ⊢
              exact ih ys zs hab hbc
            · simp [hyz, not_lt_of_lt hyz] at hbc
          · simp [hxy, not_lt_of_lt hxy] at hab

instance : IsAntisymm Str strLeRel where
  antisymm := by
    intro a b hab hba
    induction a generalizing b with
    | nil =>
      cases b with
      | nil => rfl
      | cons y ys => simp [strLeRel, strLe] at hba
    | cons x xs ih =>
      cases b with
      | nil => simp [strLeRel, strLe] at hab
      | cons y ys =>
        simp only [strLeRel, strLe] at hab hba
        rcases lt_trichotomy x y with hxy | hxy | hxy
        · simp [hxy, not_lt_of_lt hxy] at hba
        · subst hxy
          simp only [lt_irrefl, if_false] at hab hba
          rw [ih ys hab hba]
        · simp [hxy, not_lt_of_lt hxy] at hab

/-- `canonicalSourceKey` (`create_sync.go`): format every source, sort the
keys lexicographically (`sort.Strings`), join with `"|"`. -/
def canonicalSourceKey (sources : List MusicSource) : Str :=
  List.intercalate [ '|' ] (List.insertionSort strLeRel (sources.map sourceKey))

/-- The merge-sync part of a `CreateSyncRequest` / an existing Sync. -/
structure PlaylistMergeSync where
  sources : List MusicSource
  destination : MusicSource
deriving DecidableEq, Repr

inductive MergeValidationError
  | tooFewSources
  | destUnspecified
  | destPlaylistIdEmpty
  | destNotConnected
  | sourceUnspecified (i : Nat)
  | sourcePlaylistIdEmpty (i : Nat)
  | sourceNotConnected (i : Nat)
  | duplicateMerge
deriving DecidableEq, Repr

/-- The per-source loop of `validatePlaylistMergeSync` (`i` is the 1-based
index used in the Go error messages). -/
def checkSources (connected : List Nat) : Nat → List MusicSource → Option MergeValidationError
  | _, [] => none
  | i, s :: rest =>
    if s.datasource = 0 then some (.sourceUnspecified i)
    else if s.playlistId = [] then some (.sourcePlaylistIdEmpty i)
    else if ¬ connected.contains s.datasource then some (.sourceNotConnected i)
    else checkSources connected (i + 1) rest

/-- `validatePlaylistMergeSync` (`create_sync.go`): sequential validation,
ending with the duplicate check against the user's existing merge syncs.
`connected` is the user's set of connected datasources; `existingMerges`
are the merge-variant syncs among the user's existing syncs (the one-way
variants are skipped by the Go loop).  Returns `none` on success. -/
def validatePlaylistMergeSync (connected : List Nat) (req : PlaylistMergeSync)
    (existingMerges : List PlaylistMergeSync) : Option MergeValidationError :=
  if req.sources.length < 2 then some .tooFewSources
  else if req.destination.datasource = 0 then some .destUnspecified
  else if req.destination.playlistId = [] then some .destPlaylistIdEmpty
  else if ¬ connected.contains req.destination.datasource then some .destNotConnected
  else
    match checkSources connected 1 req.sources with
    | some e => some e
    | none =>
      let newKey := canonicalSourceKey req.sources
      if existingMerges.any (fun pms =>
          canonicalSourceKey pms.sources == newKey &&
          pms.destination.playlistId == req.destination.playlistId &&
          pms.destination.datasource == req.destination.datasource) then
        some .duplicateMerge
      else none

end CreateSync

namespace SyncEngine

/-- `myncer_pb.SyncStatus` (the engine never writes the unspecified value). -/
inductive SyncStatus
  | pending
  | running
  | completed
  | failed
deriving DecidableEq, Repr

/-- Observable actions of `RunSync` against the run store, the broadcaster
and the providers: a successful persist of a status, the broadcast that
follows it, and the start of strategy execution (the first provider I/O). -/
inductive Event
  | persisted (s : SyncStatus)
  | broadcasted (s : SyncStatus)
  | strategyStarted
deriving DecidableEq, Repr

/-- Outcome of strategy execution (step 3 of `RunSync`): normal return
without error, an error, or a panic. -/
inductive StratResult
  | ok
  | fail
  | panicked
deriving DecidableEq, Repr

/-- Success/failure of the three store writes `RunSync` can issue:
`CreateSyncRun` for PENDING, `UpdateSyncRun` for RUNNING, and the final
`UpdateSyncRun` issued by the deferred function. -/
structure StoreBehavior where
  createOk : Bool
  updRunningOk : Bool
  updFinalOk : Bool
deriving DecidableEq, Repr

/-- How `RunSync` terminates: a normal return (with or without an error
value) or a panic escaping to the caller. -/
inductive RunOutcome
  | returned (hasError : Bool)
  | panicPropagated
deriving DecidableEq, Repr

/-- Events of one `storeAndBroadcastSyncRun` call: on store success the run
is re-read and broadcast (on re-read failure the in-memory object — same
status — is broadcast instead); on store failure the helper returns the
error without broadcasting. -/
def storeAndBroadcastEvents (ok : Bool) (s : SyncStatus) : List Event :=
  if ok then [ .persisted s, .broadcasted s ] else []

/-- `RunSync` (`sync_engine.go`, the full-lifecycle variant the spec
follows): create the run PENDING, store+broadcast; advance to RUNNING,
store+broadcast; run the strategy; a deferred function recovers any panic,
maps it to FAILED, and stores+broadcasts the final status unconditionally.
The trace lists the store/broadcast/strategy events in program order. -/
def runSync (st : StoreBehavior) (strat : StratResult) : List Event × RunOutcome :=
  if st.createOk then
    let e1 := storeAndBroadcastEvents true .pending
    if st.updRunningOk then
      let e2 := storeAndBroadcastEvents true .running
      match strat with
      | .ok =>
        -- strategy returned nil: status COMPLETED, final store in the defer
        (e1 ++ e2 ++ [ .strategyStarted ] ++ storeAndBroadcastEvents st.updFinalOk .completed,
         .returned false)
      | .fail =>
        -- strategy returned an error: status FAILED, final store in the defer
        (e1 ++ e2 ++ [ .strategyStarted ] ++ storeAndBroadcastEvents st.updFinalOk .failed,
         .returned true)
      | .panicked =>
        -- the deferred recover converts the panic to FAILED and RunSync
        -- returns normally (its unnamed error result stays nil)
        (e1 ++ e2 ++ [ .strategyStarted ] ++ storeAndBroadcastEvents st.updFinalOk .failed,
         .returned false)
    else
      -- storing RUNNING failed: early error return, the defer still issues
      -- the final store with the in-memory status (RUNNING)
      (e1 ++ storeAndBroadcastEvents st.updFinalOk .running, .returned true)
  else
    -- creating the PENDING run failed: early error return, the defer still
    -- issues the final store with the in-memory status (PENDING)
    (storeAndBroadcastEvents st.updFinalOk .pending, .returned true)

/-- The sequence of statuses persisted to the run store, in order. -/
def persistedStatuses (tr : List Event) : List SyncStatus :=
  tr.filterMap fun e =>
    match e with
    | .persisted s => some s
    | _ => none

/-- The events that happen before strategy execution (hence before any
provider I/O) begins. -/
def eventsBeforeStrategy (tr : List Event) : List Event :=
  tr.takeWhile (fun e => e ≠ Event.strategyStarted)

/-- A `myncer_pb.Song` as built by `getSearchedSongs` for the destination. -/
structure PbSong where
  name : Str
  artistNames : List Str
  album : Str
  datasourceSongId : String
deriving DecidableEq, Repr

def mkSearchedSong (song : Matching.Song) (newId : String) : PbSong :=
  { name := song.name, artistNames := song.artistNames, album := song.album,
    datasourceSongId := newId }

/-- `getSearchedSongs` (`sync_engine.go`): resolve each song's
destination-provider identifier (`song.GetIdByDatasource`, modelled by the
oracle `resolve`); a failing song is logged and skipped (`continue`), a
resolving song is appended.  The Go function's error result is always
nil. -/
def getSearchedSongs (resolve : Matching.Song → Option String) :
    List Matching.Song → List PbSong
  | [] => []
  | song :: rest =>
    match resolve song with
    | none => getSearchedSongs resolve rest
    | some newId => mkSearchedSong song newId :: getSearchedSongs resolve rest

/-- The songs of the input whose destination resolution succeeds, paired
with their resolved identifiers — the spec's description of what reaches
the destination. -/
def resolvedSpec (resolve : Matching.Song → Option String)
    (songs : List Matching.Song) : List PbSong :=
  (songs.filter fun song => (resolve song).isSome).map
    (fun song => mkSearchedSong song ((resolve song).getD ""))

/-- `myncer_pb.SyncRun`: the engine constructs it with sync id, run id and
status only, so the proto's unmatched-songs field keeps its zero value. -/
structure SyncRun where
  syncId : String
  runId : String
  syncStatus : SyncStatus
  unmatchedSongs : List PbSong
deriving DecidableEq, Repr

/-- The initial run object built at the top of `RunSync` (status PENDING,
unmatched songs at the proto zero value `[]`). -/
def initialSyncRun (syncId runId : String) : SyncRun :=
  { syncId := syncId, runId := runId, syncStatus := .pending, unmatchedSongs := [] }

/-- Provider-visible result of `runOneWaySync`. -/
structure OneWayEffects where
  addedSongs : List PbSong
  destFinal : List PbSong
  errored : Bool
deriving DecidableEq, Repr

/-- `runOneWaySync` (`sync_engine.go`) under clients/fetch/clear/add
succeeding and LLM normalization disabled: fetch the source songs, resolve
destination identifiers (skipping failures), optionally clear the
destination, then add the resolved songs.  `destInit` is the destination
playlist's previous content. -/
def runOneWaySyncModel (resolve : Matching.Song → Option String)
    (sourceSongs : List Matching.Song) (overwriteExisting : Bool)
    (destInit : List PbSong) : OneWayEffects :=
  let searchedSongs := getSearchedSongs resolve sourceSongs
  { addedSongs := searchedSongs,
    destFinal := (if overwriteExisting then [] else destInit) ++ searchedSongs,
    errored := false }

/-- A full one-way `RunSync` (stores succeeding): the run record is created
PENDING, advanced to RUNNING, the one-way strategy runs, and the final
status is stored.  The strategy never touches the run record, so its
unmatched-songs field is exactly the initial zero value. -/
def runSyncOneWay (resolve : Matching.Song → Option String)
    (sourceSongs : List Matching.Song) (overwriteExisting : Bool)
    (destInit : List PbSong) (syncId runId : String) : SyncRun × OneWayEffects :=
  let effects := runOneWaySyncModel resolve sourceSongs overwriteExisting destInit
  let run0 := initialSyncRun syncId runId
  let finalStatus := if effects.errored then SyncStatus.failed else SyncStatus.completed
  ({ run0 with syncStatus := finalStatus }, effects)

end SyncEngine

namespace Broadcaster

/-- A subscriber: a buffered Go channel, modelled by its capacity and its
queued (not yet received) messages. -/
structure Chan where
  cap : Nat
  buf : List SyncEngine.SyncRun
deriving DecidableEq, Repr

/-- `Subscribe` allocates channels of capacity 10. -/
def subChanCap : Nat := 10

/-- The broadcaster's subscriber registry: sync id → subscriber channels,
in subscription order (a Go map with missing keys reading as empty). -/
structure Registry where
  subs : String → List Chan

/-- `SyncStatusBroadcaster.Subscribe` (`sync_status_broadcaster.go`):
append a fresh empty channel of capacity 10 under the sync id. -/
def Subscribe (b : Registry) (syncId : String) : Registry × Chan :=
  let ch : Chan := { cap := subChanCap, buf := [] }
  ({ subs := fun id => if id = syncId then b.subs syncId ++ [ ch ] else b.subs id }, ch)

/-- The `select`/`default` send in `Broadcast`: enqueue when the channel
has spare buffer capacity, otherwise drop the message (logged) without
blocking. -/
def sendOrDrop (ch : Chan) (run : SyncEngine.SyncRun) : Chan :=
  if ch.buf.length < ch.cap then { ch with buf := ch.buf ++ [ run ] } else ch

/-- `SyncStatusBroadcaster.Broadcast` (`sync_status_broadcaster.go`): look
up the channels registered under `run.syncId` (no-op when there are none)
and perform a non-blocking send-or-drop on each; channels under other sync
ids are untouched. -/
def Broadcast (b : Registry) (run : SyncEngine.SyncRun) : Registry :=
  { subs := fun id =>
      if id = run.syncId then (b.subs run.syncId).map (fun ch => sendOrDrop ch run)
      else b.subs id }

end Broadcaster

/-! ### Concrete data used by counterexamples and witnesses -/

namespace ConcreteData

/-- Two songs with the same title, empty albums, no ISRC, and disjoint
single artists. -/
def songSameTitleArtB : Matching.Song :=
  { name := [ 'a' ], artistNames := [ [ 'b' ] ], album := [], isrc := [] }

def songSameTitleArtC : Matching.Song :=
  { name := [ 'a' ], artistNames := [ [ 'c' ] ], album := [], isrc := [] }

/-- Songs without artist metadata / with one artist, for the artist-edge
cases. -/
def songNoArtistX : Matching.Song :=
  { name := [ 'x' ], artistNames := [], album := [], isrc := [] }

def songNoArtistY : Matching.Song :=
  { name := [ 'y' ], artistNames := [], album := [], isrc := [] }

def songArtistB : Matching.Song :=
  { name := [ 'x' ], artistNames := [ [ 'b' ] ], album := [], isrc := [] }

/-- Three source songs for the one-way partial-resolution scenario. -/
def oneWaySongs : List Matching.Song :=
  [ { name := "s1".toList, artistNames := [], album := [], isrc := [] },
    { name := "s2".toList, artistNames := [], album := [], isrc := [] },
    { name := "s3".toList, artistNames := [], album := [], isrc := [] } ]

/-- Resolution oracle failing exactly on the song named `s2`. -/
def oneWayResolve (s : Matching.Song) : Option String :=
  if s.name = "s2".toList then none else some "destid"

/-- A broadcaster registry with two subscribers under sync id `s`: one
whose channel is full (capacity 0) and one with spare capacity. -/
def fullChan : Broadcaster.Chan := { cap := 0, buf := [] }

def emptyChan : Broadcaster.Chan := { cap := 10, buf := [] }

def twoSubRegistry : Broadcaster.Registry :=
  { subs := fun id => if id = "s" then [ fullChan, emptyChan ] else [] }

def broadcastRun : SyncEngine.SyncRun :=
  { syncId := "s", runId := "r", syncStatus := .running, unmatchedSongs := [] }

/-- Two-source merge request and an existing merge sync with the same
sources in the opposite order and the same destination. -/
def mergeSourceA : CreateSync.MusicSource := { datasource := 1, playlistId := "pa".toList }

def mergeSourceB : CreateSync.MusicSource := { datasource := 2, playlistId := "pb".toList }

def mergeDest : CreateSync.MusicSource := { datasource := 1, playlistId := "pd".toList }

def mergeReq : CreateSync.PlaylistMergeSync :=
  { sources := [ mergeSourceA, mergeSourceB ], destination := mergeDest }

def mergeExisting : CreateSync.PlaylistMergeSync :=
  { sources := [ mergeSourceB, mergeSourceA ], destination := mergeDest }

end ConcreteData

/-! ## Theorems -/

namespace Matching

theorem lev_nil_left (ys : Str) : lev [] ys = ys.length := rfl

theorem lev_nil_right (xs : Str) : lev xs [] = xs.length := by
  induction xs with
  | nil => rfl
  | cons x xs ih =>
    show levCons x (lev xs) [] = xs.length + 1
    show lev xs [] + 1 = xs.length + 1
    rw [ih]

theorem lev_cons_cons (x y : Char) (xs ys : Str) :
    lev (x :: xs) (y :: ys) =
      min (min (lev xs (y :: ys) + 1) (lev (x :: xs) ys + 1))
        (lev xs ys + (if x = y then 0 else 1)) := rfl

/-- Levenshtein distance is symmetric. -/
theorem lev_comm (xs ys : Str) : lev xs ys = lev ys xs := by
  generalize hn : xs.length + ys.length = n
  induction n using Nat.strong_induction_on generalizing xs ys with
  | _ n ih =>
    cases xs with
    | nil => rw [lev_nil_left, lev_nil_right]
    | cons x xs =>
      cases ys with
      | nil => rw [lev_nil_left, lev_nil_right]
      | cons y ys =>
        have h1 : lev xs (y :: ys) = lev (y :: ys) xs := by
          refine ih (xs.length + (y :: ys).length) ?_ xs (y :: ys) rfl
          subst hn; simp only [List.length_cons]; omega
        have h2 : lev (x :: xs) ys = lev ys (x :: xs) := by
          refine ih ((x :: xs).length + ys.length) ?_ (x :: xs) ys rfl
          subst hn; simp only [List.length_cons]; omega
        have h3 : lev xs ys = lev ys xs := by
          refine ih (xs.length + ys.length) ?_ xs ys rfl
          subst hn; simp only [List.length_cons]; omega
        have h4 : (if x = y then 0 else 1) = (if y = x then 0 else 1) := by
          by_cases h : x = y
          · rw [if_pos h, if_pos h.symm]
          · rw [if_neg h, if_neg (fun hh => h hh.symm)]
        rw [lev_cons_cons, lev_cons_cons, h1, h2, h3, h4]
        omega

theorem normalizedLevenshtein_comm (s1 s2 : Str) :
    normalizedLevenshtein s1 s2 = normalizedLevenshtein s2 s1 := by
  unfold normalizedLevenshtein
  rw [lev_comm, max_comm s1.length s2.length]

/-- Evaluation helper for `normalizedLevenshtein` at concrete arguments. -/
theorem normalizedLevenshtein_eval (s1 s2 : Str) (d m : Nat)
    (hd : lev s1 s2 = d) (hm : max s1.length s2.length = m) (h0 : m ≠ 0) :
    normalizedLevenshtein s1 s2 = (1 - (d : ℚ) / (m : ℚ)) * 100 := by
  unfold normalizedLevenshtein
  rw [hd, hm, if_neg h0]

theorem normalizedLevenshtein_nil_nil : normalizedLevenshtein [] [] = 100 := rfl

theorem lev_self (s : Str) : lev s s = 0 := by
  induction s with
  | nil => rfl
  | cons x xs ih => rw [lev_cons_cons, if_pos rfl, ih]; omega

theorem normalizedLevenshtein_self (s : Str) : normalizedLevenshtein s s = 100 := by
  unfold normalizedLevenshtein
  by_cases h : max s.length s.length = 0
  · rw [if_pos h]
  · rw [if_neg h, lev_self]
    push_cast
    rw [zero_div]
    norm_num

theorem list_toFinset_dedup {α : Type} [DecidableEq α] (l : List α) :
    l.dedup.toFinset = l.toFinset := by
  ext a
  simp [List.mem_dedup]

theorem interCard_eq (x y : List Str) :
    (x.dedup.filter (fun w => w ∈ y.dedup)).length = (x.toFinset ∩ y.toFinset).card := by
  have hnd : (x.dedup.filter (fun w => decide (w ∈ y.dedup))).Nodup :=
    x.nodup_dedup.filter _
  have hset : (x.dedup.filter (fun w => decide (w ∈ y.dedup))).toFinset =
      x.toFinset ∩ y.toFinset := by
    ext a
    simp [List.mem_filter, List.mem_dedup]
  calc (x.dedup.filter (fun w => decide (w ∈ y.dedup))).length
      = (x.dedup.filter (fun w => decide (w ∈ y.dedup))).dedup.length := by rw [hnd.dedup]
    _ = (x.dedup.filter (fun w => decide (w ∈ y.dedup))).toFinset.card :=
        (List.card_toFinset _).symm
    _ = (x.toFinset ∩ y.toFinset).card := by rw [hset]

theorem unionCard_eq (x y : List Str) :
    ((x.dedup ++ y.dedup).dedup).length = (x.toFinset ∪ y.toFinset).card := by
  calc ((x.dedup ++ y.dedup).dedup).length
      = (x.dedup ++ y.dedup).toFinset.card := (List.card_toFinset _).symm
    _ = (x.toFinset ∪ y.toFinset).card := by
        rw [List.toFinset_append, list_toFinset_dedup, list_toFinset_dedup]

theorem tokenSetRatio_comm (s1 s2 : Str) : tokenSetRatio s1 s2 = tokenSetRatio s2 s1 := by
  have hinter : (List.filter (fun w => decide (w ∈ (fields s2).dedup)) (fields s1).dedup).length =
      (List.filter (fun w => decide (w ∈ (fields s1).dedup)) (fields s2).dedup).length := by
    rw [interCard_eq, interCard_eq, Finset.inter_comm]
  have hunion : (((fields s1).dedup ++ (fields s2).dedup).dedup).length =
      (((fields s2).dedup ++ (fields s1).dedup).dedup).length := by
    rw [unionCard_eq, unionCard_eq, Finset.union_comm]
  unfold tokenSetRatio
  by_cases h1 : (fields s1).dedup = [] <;> by_cases h2 : (fields s2).dedup = []
  · rw [if_pos ⟨h1, h2⟩, if_pos ⟨h2, h1⟩]
  · have c1 : ¬ ((fields s1).dedup = [] ∧ (fields s2).dedup = []) := fun h => h2 h.2
    have c2 : ¬ ((fields s2).dedup = [] ∧ (fields s1).dedup = []) := fun h => h2 h.1
    have c3 : (fields s1).dedup = [] ∨ (fields s2).dedup = [] := Or.inl h1
    have c4 : (fields s2).dedup = [] ∨ (fields s1).dedup = [] := Or.inr h1
    rw [if_neg c1, if_neg c2, if_pos c3, if_pos c4]
  · have c1 : ¬ ((fields s1).dedup = [] ∧ (fields s2).dedup = []) := fun h => h1 h.1
    have c2 : ¬ ((fields s2).dedup = [] ∧ (fields s1).dedup = []) := fun h => h1 h.2
    have c3 : (fields s1).dedup = [] ∨ (fields s2).dedup = [] := Or.inr h2
    have c4 : (fields s2).dedup = [] ∨ (fields s1).dedup = [] := Or.inl h2
    rw [if_neg c1, if_neg c2, if_pos c3, if_pos c4]
  · have c1 : ¬ ((fields s1).dedup = [] ∧ (fields s2).dedup = []) := fun h => h1 h.1
    have c2 : ¬ ((fields s2).dedup = [] ∧ (fields s1).dedup = []) := fun h => h2 h.1
    have c3 : ¬ ((fields s1).dedup = [] ∨ (fields s2).dedup = []) := fun h => h.elim h1 h2
    have c4 : ¬ ((fields s2).dedup = [] ∨ (fields s1).dedup = []) := fun h => h.elim h2 h1
    rw [if_neg c1, if_neg c2, if_neg c3, if_neg c4, hinter, hunion]

theorem tokenSetRatio_both_empty (s1 s2 : Str)
    (h1 : fields s1 = []) (h2 : fields s2 = []) : tokenSetRatio s1 s2 = 100 := by
  unfold tokenSetRatio
  rw [h1, h2]
  simp [List.dedup_nil]

theorem tokenSetRatio_left_empty (s1 s2 : Str)
    (h1 : fields s1 = []) (h2 : fields s2 ≠ []) : tokenSetRatio s1 s2 = 0 := by
  unfold tokenSetRatio
  have h2' : (fields s2).dedup ≠ [] := by
    rw [ne_eq, List.dedup_eq_nil]; exact h2
  rw [h1]
  simp [List.dedup_nil, h2']

theorem tokenSetRatio_right_empty (s1 s2 : Str)
    (h1 : fields s1 ≠ []) (h2 : fields s2 = []) : tokenSetRatio s1 s2 = 0 := by
  rw [tokenSetRatio_comm]
  exact tokenSetRatio_left_empty s2 s1 h2 h1

theorem isrcMatch_comm (songA songB : Matching.Song) :
    isrcMatch songA songB ↔ isrcMatch songB songA := by
  unfold isrcMatch
  constructor
  · rintro ⟨h1, h2⟩; exact ⟨h2 ▸ h1, h2.symm⟩
  · rintro ⟨h1, h2⟩; exact ⟨h2 ▸ h1, h2.symm⟩

theorem titleScore_comm (songA songB : Matching.Song) :
    titleScore songA songB = titleScore songB songA :=
  normalizedLevenshtein_comm _ _

theorem artistScore_comm (songA songB : Matching.Song) :
    artistScore songA songB = artistScore songB songA :=
  tokenSetRatio_comm _ _

theorem albumScore_comm (songA songB : Matching.Song) :
    albumScore songA songB = albumScore songB songA :=
  normalizedLevenshtein_comm _ _

theorem titleWeight_comm (songA songB : Matching.Song) :
    titleWeight songA songB = titleWeight songB songA := by
  unfold titleWeight
  rw [albumScore_comm]
  refine if_congr ?_ rfl rfl
  constructor
  · rintro ⟨ha, hb, hs⟩; exact ⟨hb, ha, hs⟩
  · rintro ⟨ha, hb, hs⟩; exact ⟨hb, ha, hs⟩

theorem calculateSimilarity_comm (songA songB : Matching.Song) :
    CalculateSimilarity songA songB = CalculateSimilarity songB songA := by
  unfold CalculateSimilarity
  by_cases h : isrcMatch songA songB
  · rw [if_pos h, if_pos ((isrcMatch_comm songA songB).mp h)]
  · rw [if_neg h, if_neg (fun hh => h ((isrcMatch_comm songB songA).mp hh))]
    rw [artistScore_comm, titleScore_comm, albumScore_comm, titleWeight_comm]

end Matching

theorem matchingV0_calculateSimilarity_comm (songA songB : Matching.Song) :
    MatchingV0.CalculateSimilarity songA songB = MatchingV0.CalculateSimilarity songB songA := by
  unfold MatchingV0.CalculateSimilarity
  by_cases h : Matching.isrcMatch songA songB
  · rw [if_pos h, if_pos ((Matching.isrcMatch_comm songA songB).mp h)]
  · rw [if_neg h, if_neg (fun hh => h ((Matching.isrcMatch_comm songB songA).mp hh))]
    rw [Matching.artistScore_comm, Matching.titleScore_comm, Matching.albumScore_comm]

/-- C8: the similarity score is symmetric — `Score(A,B) = Score(B,A)` for
both the current matcher (`server/matching/song_matcher.go`, including its
exact-identifier short-circuit, penalty branch and conditional title
weight) and the plain weighted-sum variant (`src/unnamed/part_000`), since
the edit-distance and token-set components are each symmetric. -/
theorem C8_score_symmetric (songA songB : Matching.Song) :
    Matching.CalculateSimilarity songA songB = Matching.CalculateSimilarity songB songA ∧
    MatchingV0.CalculateSimilarity songA songB = MatchingV0.CalculateSimilarity songB songA :=
  ⟨Matching.calculateSimilarity_comm songA songB,
   matchingV0_calculateSimilarity_comm songA songB⟩

/-- Shared evaluation helper for `tokenSetRatio` at concrete arguments. -/
theorem tokenSetRatio_eval (s1 s2 : Str) (i u : Nat)
    (h1 : (Matching.fields s1).dedup ≠ []) (h2 : (Matching.fields s2).dedup ≠ [])
    (hi : (List.filter (fun w => decide (w ∈ (Matching.fields s2).dedup))
      (Matching.fields s1).dedup).length = i)
    (hu : (((Matching.fields s1).dedup ++ (Matching.fields s2).dedup).dedup).length = u) :
    Matching.tokenSetRatio s1 s2 = (i : ℚ) / (u : ℚ) * 100 := by
  unfold Matching.tokenSetRatio
  rw [if_neg (fun h => h1 h.1), if_neg (fun h => h.elim h1 h2), hi, hu]

/-- The artist component of the two concrete songs with disjoint artists
is 0. -/
theorem artistScore_concrete :
    Matching.artistScore ConcreteData.songSameTitleArtB ConcreteData.songSameTitleArtC = 0 := by
  simp only [Matching.artistScore]
  rw [tokenSetRatio_eval _ _ 0 2 (by decide) (by decide) (by decide) (by decide)]
  norm_num

/-- C10: when neither song carries a matching non-empty ISRC, the artist
component of the score (the token-set ratio of the cleaned, space-joined
artist lists) is 100 if both cleaned artist strings contain no words — in
which case the score includes the full 45-point artist contribution in
both matcher variants — and 0 if exactly one of them contains no words. -/
theorem C10_artist_component_edge_cases (A B : Matching.Song)
    (hno : ¬ Matching.isrcMatch A B) :
    (Matching.fields (Matching.Clean (Matching.joinSpace A.artistNames)) = [] ∧
     Matching.fields (Matching.Clean (Matching.joinSpace B.artistNames)) = [] →
      Matching.artistScore A B = 100 ∧
      Matching.CalculateSimilarity A B =
        Matching.titleScore A B * Matching.titleWeight A B + 45 +
          Matching.albumScore A B * (1 / 10) ∧
      MatchingV0.CalculateSimilarity A B =
        Matching.titleScore A B * (9 / 20) + 45 + Matching.albumScore A B * (1 / 10)) ∧
    ((Matching.fields (Matching.Clean (Matching.joinSpace A.artistNames)) = [] ∧
      Matching.fields (Matching.Clean (Matching.joinSpace B.artistNames)) ≠ []) ∨
     (Matching.fields (Matching.Clean (Matching.joinSpace A.artistNames)) ≠ [] ∧
      Matching.fields (Matching.Clean (Matching.joinSpace B.artistNames)) = []) →
      Matching.artistScore A B = 0) := by
  constructor
  · rintro ⟨ha, hb⟩
    have h100 : Matching.artistScore A B = 100 := by
      simp only [Matching.artistScore]
      exact Matching.tokenSetRatio_both_empty _ _ ha hb
    refine ⟨h100, ?_, ?_⟩
    · unfold Matching.CalculateSimilarity
      rw [if_neg hno, if_neg (by rw [h100]; norm_num), h100]
      norm_num
    · unfold MatchingV0.CalculateSimilarity
      rw [if_neg hno, h100]
      norm_num
  · rintro (⟨ha, hb⟩ | ⟨ha, hb⟩)
    · simp only [Matching.artistScore]
      exact Matching.tokenSetRatio_left_empty _ _ ha hb
    · simp only [Matching.artistScore]
      exact Matching.tokenSetRatio_right_empty _ _ ha hb

/-- Witness for C10 at concrete songs: two songs with no artist metadata
score a full artist component of 100; with artist metadata on exactly one
side the component is 0. -/
theorem C10_artist_component_witness :
    Matching.artistScore ConcreteData.songNoArtistX ConcreteData.songNoArtistY = 100 ∧
    Matching.artistScore ConcreteData.songNoArtistX ConcreteData.songArtistB = 0 :=
  ⟨((C10_artist_component_edge_cases ConcreteData.songNoArtistX ConcreteData.songNoArtistY
      (by decide)).1 ⟨by decide, by decide⟩).1,
   (C10_artist_component_edge_cases ConcreteData.songNoArtistX ConcreteData.songArtistB
      (by decide)).2 (Or.inl ⟨by decide, by decide⟩)⟩

/-- C3 counterexample: two songs with identical titles, empty albums, no
ISRC, and disjoint single artists.  The claimed fixed weighted sum
`0.45·title + 0.45·artist + 0.10·album` equals 55, but the current
`CalculateSimilarity` (`server/matching/song_matcher.go`) applies the
low-artist penalty branch and returns 0. -/
theorem C3_counterexample :
    Matching.CalculateSimilarity ConcreteData.songSameTitleArtB ConcreteData.songSameTitleArtC = 0 ∧
    Matching.titleScore ConcreteData.songSameTitleArtB ConcreteData.songSameTitleArtC * (9 / 20) +
      Matching.artistScore ConcreteData.songSameTitleArtB ConcreteData.songSameTitleArtC * (9 / 20) +
      Matching.albumScore ConcreteData.songSameTitleArtB ConcreteData.songSameTitleArtC * (1 / 10) = 55 ∧
    ¬ (Matching.CalculateSimilarity ConcreteData.songSameTitleArtB ConcreteData.songSameTitleArtC =
       Matching.titleScore ConcreteData.songSameTitleArtB ConcreteData.songSameTitleArtC * (9 / 20) +
         Matching.artistScore ConcreteData.songSameTitleArtB ConcreteData.songSameTitleArtC * (9 / 20) +
         Matching.albumScore ConcreteData.songSameTitleArtB ConcreteData.songSameTitleArtC * (1 / 10)) := by
  have ht : Matching.titleScore ConcreteData.songSameTitleArtB ConcreteData.songSameTitleArtC = 100 :=
    Matching.normalizedLevenshtein_self _
  have hal : Matching.albumScore ConcreteData.songSameTitleArtB ConcreteData.songSameTitleArtC = 100 :=
    Matching.normalizedLevenshtein_self _
  have hcalc : Matching.CalculateSimilarity ConcreteData.songSameTitleArtB
      ConcreteData.songSameTitleArtC = 0 := by
    unfold Matching.CalculateSimilarity
    rw [if_neg (by decide), if_pos (by rw [artistScore_concrete]; norm_num),
      artistScore_concrete]
    norm_num
  have hsum : Matching.titleScore ConcreteData.songSameTitleArtB ConcreteData.songSameTitleArtC * (9 / 20) +
      Matching.artistScore ConcreteData.songSameTitleArtB ConcreteData.songSameTitleArtC * (9 / 20) +
      Matching.albumScore ConcreteData.songSameTitleArtB ConcreteData.songSameTitleArtC * (1 / 10) = 55 := by
    rw [ht, hal, artistScore_concrete]
    norm_num
  refine ⟨hcalc, hsum, fun h => ?_⟩
  rw [hcalc, hsum] at h
  norm_num at h

/-- C3 amended: the ISRC short-circuit behaves as claimed, but the fuzzy
branch is not an unconditional fixed weighted sum: when the artist score is
below 50 the function returns `artistScore · 0.5`, and otherwise it returns
the weighted sum whose title weight is 0.30 (instead of 0.45) when both
cleaned albums are non-empty with album score below 70. -/
theorem C3_amended_similarity_formula (A B : Matching.Song) :
    (Matching.isrcMatch A B → Matching.CalculateSimilarity A B = 100) ∧
    (¬ Matching.isrcMatch A B → Matching.artistScore A B < 50 →
      Matching.CalculateSimilarity A B = Matching.artistScore A B * (1 / 2)) ∧
    (¬ Matching.isrcMatch A B → 50 ≤ Matching.artistScore A B →
      Matching.CalculateSimilarity A B =
        Matching.titleScore A B * Matching.titleWeight A B +
          Matching.artistScore A B * (9 / 20) + Matching.albumScore A B * (1 / 10)) ∧
    (Matching.titleWeight A B = 3 / 10 ∨ Matching.titleWeight A B = 9 / 20) := by
  refine ⟨fun h => ?_, fun hno hlt => ?_, fun hno hge => ?_, ?_⟩
  · unfold Matching.CalculateSimilarity
    rw [if_pos h]
  · unfold Matching.CalculateSimilarity
    rw [if_neg hno, if_pos hlt]
  · unfold Matching.CalculateSimilarity
    rw [if_neg hno, if_neg (not_lt.mpr hge)]
  · unfold Matching.titleWeight
    by_cases h : Matching.Clean A.album ≠ [] ∧ Matching.Clean B.album ≠ [] ∧
        Matching.albumScore A B < 70
    · left; rw [if_pos h]
    · right; rw [if_neg h]

/-- Witness for the amended C3 at the concrete song pair: the penalty
branch applies (artist score 0 < 50) and the score is `0 · 0.5 = 0`. -/
theorem C3_amended_witness :
    Matching.CalculateSimilarity ConcreteData.songSameTitleArtB ConcreteData.songSameTitleArtC =
      Matching.artistScore ConcreteData.songSameTitleArtB ConcreteData.songSameTitleArtC * (1 / 2) :=
  (C3_amended_similarity_formula ConcreteData.songSameTitleArtB
    ConcreteData.songSameTitleArtC).2.1 (by decide)
    (by rw [artistScore_concrete]; norm_num)

namespace Matching

/-- The loop of `DeduplicateSongs` computes exactly the spec-worded greedy
rule (kept iff the score against every earlier kept song is strictly below
the threshold), for any accumulator. -/
theorem dedupGo_eq_spec (θ : ℚ) :
    ∀ (rest acc : List Song), dedupGo θ rest acc = dedupSpecGo θ rest acc := by
  intro rest
  induction rest with
  | nil => intro acc; rfl
  | cons s rest ih =>
    intro acc
    by_cases hc : ∃ u ∈ acc, θ ≤ CalculateSimilarity s u
    · have h1 : (acc.any fun u => AreDuplicates s u θ) = true := by
        rw [List.any_eq_true]
        obtain ⟨u, hu, hle⟩ := hc
        exact ⟨u, hu, by simpa [AreDuplicates] using hle⟩
      have h2 : ¬ ((acc.all fun u => decide (CalculateSimilarity s u < θ)) = true) := by
        rw [List.all_eq_true]
        intro hall
        obtain ⟨u, hu, hle⟩ := hc
        have := hall u hu
        rw [decide_eq_true_eq] at this
        exact absurd hle (not_le.mpr this)
      simp only [dedupGo, dedupSpecGo]
      rw [if_pos h1, if_neg h2]
      exact ih acc
    · have h1 : ¬ ((acc.any fun u => AreDuplicates s u θ) = true) := by
        rw [List.any_eq_true]
        rintro ⟨u, hu, hd⟩
        exact hc ⟨u, hu, by simpa [AreDuplicates] using hd⟩
      have h2 : (acc.all fun u => decide (CalculateSimilarity s u < θ)) = true := by
        rw [List.all_eq_true]
        intro u hu
        rw [decide_eq_true_eq]
        by_contra h
        exact hc ⟨u, hu, not_lt.mp h⟩
      simp only [dedupGo, dedupSpecGo]
      rw [if_neg h1, if_pos h2]
      exact ih (acc ++ [ s ])

/-- The loop of `DeduplicateSongs` appends to its accumulator a
subsequence of the remaining input. -/
theorem dedupGo_sublist (θ : ℚ) :
    ∀ (rest acc : List Song), ∃ t, dedupGo θ rest acc = acc ++ t ∧ t.Sublist rest := by
  intro rest
  induction rest with
  | nil => intro acc; exact ⟨[], by simp [dedupGo], List.nil_sublist []⟩
  | cons s rest ih =>
    intro acc
    by_cases h : (acc.any fun u => AreDuplicates s u θ) = true
    · obtain ⟨t, ht, hsub⟩ := ih acc
      refine ⟨t, ?_, hsub.cons s⟩
      simp only [dedupGo]
      rw [if_pos h]
      exact ht
    · obtain ⟨t, ht, hsub⟩ := ih (acc ++ [ s ])
      refine ⟨s :: t, ?_, hsub.cons₂ s⟩
      simp only [dedupGo]
      rw [if_neg h, ht, List.append_assoc]
      rfl

end Matching

/-- C5: `DeduplicateSongs` returns exactly the greedy-selected subsequence
of the input in original order — a song is kept if and only if its
similarity score against every earlier kept song is strictly below the
threshold (`dedupSpec`), the output is a subsequence of the input, and its
length is at most the input's length. -/
theorem C5_deduplicate_greedy (songs : List Matching.Song) (threshold : ℚ) :
    Matching.DeduplicateSongs songs threshold = Matching.dedupSpec songs threshold ∧
    (Matching.DeduplicateSongs songs threshold).Sublist songs ∧
    (Matching.DeduplicateSongs songs threshold).length ≤ songs.length := by
  have h1 : Matching.DeduplicateSongs songs threshold = Matching.dedupSpec songs threshold :=
    Matching.dedupGo_eq_spec threshold songs []
  obtain ⟨t, ht, hsub⟩ := Matching.dedupGo_sublist threshold songs []
  have h2 : (Matching.DeduplicateSongs songs threshold).Sublist songs := by
    unfold Matching.DeduplicateSongs
    rw [ht]
    simpa using hsub
  exact ⟨h1, h2, h2.length_le⟩

namespace CreateSync

/-- `canonicalSourceKey` is invariant under permutation of the sources. -/
theorem canonicalSourceKey_perm (l l' : List MusicSource) (h : l.Perm l') :
    canonicalSourceKey l = canonicalSourceKey l' := by
  unfold canonicalSourceKey
  congr 1
  refine List.eq_of_perm_of_sorted ?_ (List.sorted_insertionSort _ _)
    (List.sorted_insertionSort _ _)
  have p1 : (List.insertionSort strLeRel (l.map sourceKey)).Perm (l.map sourceKey) :=
    List.perm_insertionSort _ _
  have p2 : (l.map sourceKey).Perm (l'.map sourceKey) := h.map _
  have p3 : (l'.map sourceKey).Perm (List.insertionSort strLeRel (l'.map sourceKey)) :=
    (List.perm_insertionSort _ _).symm
  exact (p1.trans p2).trans p3

end CreateSync

/-- C6: `canonicalSourceKey` gives the same key on every permutation of a
source list, and a Merge create request whose source multiset and
destination coincide with an existing merge sync of the user (in any
order) is rejected as a duplicate by `validatePlaylistMergeSync`, provided
the request passes the preceding structural checks. -/
theorem C6_canonicalization_order_insensitive (connected : List Nat)
    (req : CreateSync.PlaylistMergeSync) (existing : List CreateSync.PlaylistMergeSync)
    (e : CreateSync.PlaylistMergeSync)
    (he : e ∈ existing) (hperm : e.sources.Perm req.sources)
    (hdest : e.destination = req.destination)
    (hlen : 2 ≤ req.sources.length) (hds : ¬ req.destination.datasource = 0)
    (hpid : ¬ req.destination.playlistId = [])
    (hconn : connected.contains req.destination.datasource = true)
    (hsrcs : CreateSync.checkSources connected 1 req.sources = none) :
    (∀ l l' : List CreateSync.MusicSource, l.Perm l' →
      CreateSync.canonicalSourceKey l = CreateSync.canonicalSourceKey l') ∧
    CreateSync.validatePlaylistMergeSync connected req existing =
      some CreateSync.MergeValidationError.duplicateMerge := by
  refine ⟨CreateSync.canonicalSourceKey_perm, ?_⟩
  unfold CreateSync.validatePlaylistMergeSync
  rw [if_neg (not_lt.mpr hlen), if_neg hds, if_neg hpid,
    if_neg (not_not_intro hconn), hsrcs]
  have hany : (existing.any fun pms =>
      CreateSync.canonicalSourceKey pms.sources == CreateSync.canonicalSourceKey req.sources &&
      pms.destination.playlistId == req.destination.playlistId &&
      pms.destination.datasource == req.destination.datasource) = true := by
    rw [List.any_eq_true]
    refine ⟨e, he, ?_⟩
    rw [Bool.and_eq_true, Bool.and_eq_true]
    refine ⟨⟨?_, ?_⟩, ?_⟩
    · rw [beq_iff_eq]
      exact CreateSync.canonicalSourceKey_perm _ _ hperm
    · rw [beq_iff_eq, hdest]
    · rw [beq_iff_eq, hdest]
  rw [if_pos hany]

/-- Witness for C6: the concrete two-source merge request is rejected as a
duplicate of the existing sync listing the same sources in the opposite
order. -/
theorem C6_witness :
    CreateSync.validatePlaylistMergeSync [ 1, 2 ] ConcreteData.mergeReq
      [ ConcreteData.mergeExisting ] =
      some CreateSync.MergeValidationError.duplicateMerge :=
  (C6_canonicalization_order_insensitive [ 1, 2 ] ConcreteData.mergeReq
    [ ConcreteData.mergeExisting ] ConcreteData.mergeExisting
    (by decide)
    (List.Perm.swap ConcreteData.mergeSourceA ConcreteData.mergeSourceB [])
    rfl (by decide) (by decide) (by decide) (by decide) (by decide)).2

/-- C1: with the store available, every `RunSync` invocation (whatever the
strategy outcome) persists and broadcasts exactly the status sequence
PENDING, RUNNING, then one terminal status (COMPLETED or FAILED), each
status stored and broadcast before the next step, and both PENDING and
RUNNING are persisted before strategy execution (the first provider I/O)
begins. -/
theorem C1_status_lifecycle (st : SyncEngine.StoreBehavior) (strat : SyncEngine.StratResult)
    (h1 : st.createOk = true) (h2 : st.updRunningOk = true) (h3 : st.updFinalOk = true) :
    ∃ t : SyncEngine.SyncStatus,
      (t = SyncEngine.SyncStatus.completed ∨ t = SyncEngine.SyncStatus.failed) ∧
      (SyncEngine.runSync st strat).1 =
        [ .persisted .pending, .broadcasted .pending, .persisted .running,
          .broadcasted .running, .strategyStarted, .persisted t, .broadcasted t ] ∧
      SyncEngine.persistedStatuses (SyncEngine.runSync st strat).1 =
        [ .pending, .running, t ] ∧
      SyncEngine.Event.persisted .pending ∈
        SyncEngine.eventsBeforeStrategy (SyncEngine.runSync st strat).1 ∧
      SyncEngine.Event.persisted .running ∈
        SyncEngine.eventsBeforeStrategy (SyncEngine.runSync st strat).1 := by
  obtain ⟨c, r, f⟩ := st
  simp only at h1 h2 h3
  subst h1; subst h2; subst h3
  cases strat
  · exact ⟨.completed, by decide⟩
  · exact ⟨.failed, by decide⟩
  · exact ⟨.failed, by decide⟩

/-- Witness for C1: the all-stores-succeed run with a successful strategy. -/
theorem C1_witness :
    ∃ t : SyncEngine.SyncStatus,
      (t = SyncEngine.SyncStatus.completed ∨ t = SyncEngine.SyncStatus.failed) ∧
      (SyncEngine.runSync ⟨true, true, true⟩ .ok).1 =
        [ .persisted .pending, .broadcasted .pending, .persisted .running,
          .broadcasted .running, .strategyStarted, .persisted t, .broadcasted t ] ∧
      SyncEngine.persistedStatuses (SyncEngine.runSync ⟨true, true, true⟩ .ok).1 =
        [ .pending, .running, t ] ∧
      SyncEngine.Event.persisted .pending ∈
        SyncEngine.eventsBeforeStrategy (SyncEngine.runSync ⟨true, true, true⟩ .ok).1 ∧
      SyncEngine.Event.persisted .running ∈
        SyncEngine.eventsBeforeStrategy (SyncEngine.runSync ⟨true, true, true⟩ .ok).1 :=
  C1_status_lifecycle ⟨true, true, true⟩ .ok rfl rfl rfl

/-- C4: a panic during strategy execution is recovered inside `RunSync`
(the call returns normally instead of propagating the panic), the run's
status is set to FAILED, that terminal state is the last persisted status
and the final broadcast is its broadcast — the run is never left with
RUNNING as its final persisted status. -/
theorem C4_panic_recovered (st : SyncEngine.StoreBehavior)
    (h1 : st.createOk = true) (h2 : st.updRunningOk = true) (h3 : st.updFinalOk = true) :
    (SyncEngine.runSync st .panicked).2 = SyncEngine.RunOutcome.returned false ∧
    (SyncEngine.runSync st .panicked).2 ≠ SyncEngine.RunOutcome.panicPropagated ∧
    SyncEngine.persistedStatuses (SyncEngine.runSync st .panicked).1 =
      [ .pending, .running, .failed ] ∧
    ((SyncEngine.runSync st .panicked).1).getLast? =
      some (SyncEngine.Event.broadcasted .failed) ∧
    (SyncEngine.persistedStatuses (SyncEngine.runSync st .panicked).1).getLast? =
      some SyncEngine.SyncStatus.failed := by
  obtain ⟨c, r, f⟩ := st
  simp only at h1 h2 h3
  subst h1; subst h2; subst h3
  decide

/-- Witness for C4 at the all-stores-succeed behaviour. -/
theorem C4_witness :
    (SyncEngine.runSync ⟨true, true, true⟩ .panicked).2 =
      SyncEngine.RunOutcome.returned false ∧
    (SyncEngine.runSync ⟨true, true, true⟩ .panicked).2 ≠
      SyncEngine.RunOutcome.panicPropagated ∧
    SyncEngine.persistedStatuses (SyncEngine.runSync ⟨true, true, true⟩ .panicked).1 =
      [ .pending, .running, .failed ] ∧
    ((SyncEngine.runSync ⟨true, true, true⟩ .panicked).1).getLast? =
      some (SyncEngine.Event.broadcasted .failed) ∧
    (SyncEngine.persistedStatuses (SyncEngine.runSync ⟨true, true, true⟩ .panicked).1).getLast? =
      some SyncEngine.SyncStatus.failed :=
  C4_panic_recovered ⟨true, true, true⟩ rfl rfl rfl

/-- `getSearchedSongs` returns exactly the input songs whose destination
resolution succeeds, in order, each paired with its resolved identifier. -/
theorem getSearchedSongs_eq_resolvedSpec (resolve : Matching.Song → Option String)
    (songs : List Matching.Song) :
    SyncEngine.getSearchedSongs resolve songs = SyncEngine.resolvedSpec resolve songs := by
  induction songs with
  | nil => rfl
  | cons s rest ih =>
    cases h : resolve s with
    | none =>
      simp only [SyncEngine.getSearchedSongs, SyncEngine.resolvedSpec,
        List.filter_cons, h, Option.isSome_none] at ih ⊢
      simpa [h] using ih
    | some newId =>
      simp only [SyncEngine.getSearchedSongs, SyncEngine.resolvedSpec,
        List.filter_cons, h, Option.isSome_some] at ih ⊢
      simpa [h] using ih

/-- C2 (amended): per-song destination-resolution failures do not abort a
one-way run — the run ends COMPLETED, the destination receives exactly the
songs that resolved successfully (after the optional clear) — but the
failed songs are only logged and skipped: the run record's unmatched-songs
field is never populated and stays empty. -/
theorem C2_amended_partial_resolution (resolve : Matching.Song → Option String)
    (songs : List Matching.Song) (overwrite : Bool) (destInit : List SyncEngine.PbSong)
    (syncId runId : String) :
    (SyncEngine.runSyncOneWay resolve songs overwrite destInit syncId runId).2.errored = false ∧
    (SyncEngine.runSyncOneWay resolve songs overwrite destInit syncId runId).1.syncStatus =
      SyncEngine.SyncStatus.completed ∧
    (SyncEngine.runSyncOneWay resolve songs overwrite destInit syncId runId).1.unmatchedSongs =
      [] ∧
    (SyncEngine.runSyncOneWay resolve songs overwrite destInit syncId runId).2.addedSongs =
      SyncEngine.resolvedSpec resolve songs ∧
    (SyncEngine.runSyncOneWay resolve songs overwrite destInit syncId runId).2.destFinal =
      (if overwrite then [] else destInit) ++ SyncEngine.resolvedSpec resolve songs := by
  refine ⟨rfl, rfl, rfl, ?_, ?_⟩
  · exact getSearchedSongs_eq_resolvedSpec resolve songs
  · simp only [SyncEngine.runSyncOneWay, SyncEngine.runOneWaySyncModel]
    rw [getSearchedSongs_eq_resolvedSpec]

/-- C2 counterexample: a one-way run over three songs of which one fails
destination resolution ends COMPLETED with exactly two songs added, but
the run record's unmatched-songs list has length 0, not 1 — the engine
never appends the skipped song to it. -/
theorem C2_counterexample :
    (SyncEngine.runSyncOneWay ConcreteData.oneWayResolve ConcreteData.oneWaySongs false []
      "sync1" "run1").1.syncStatus = SyncEngine.SyncStatus.completed ∧
    ((SyncEngine.runSyncOneWay ConcreteData.oneWayResolve ConcreteData.oneWaySongs false []
      "sync1" "run1").2.addedSongs).length = 2 ∧
    ((SyncEngine.runSyncOneWay ConcreteData.oneWayResolve ConcreteData.oneWaySongs false []
      "sync1" "run1").1.unmatchedSongs).length = 0 ∧
    ¬ (((SyncEngine.runSyncOneWay ConcreteData.oneWayResolve ConcreteData.oneWaySongs false []
      "sync1" "run1").1.unmatchedSongs).length = 1) := by
  decide

/-- C9: `Broadcast` touches only the channels registered under the run's
sync id; each such channel receives the run exactly when it has spare
buffer capacity (a full channel drops the update for that subscriber
only), and subscribers under other sync ids are untouched. -/
theorem C9_broadcast_send_or_drop (b : Broadcaster.Registry) (run : SyncEngine.SyncRun) :
    (∀ id, id ≠ run.syncId → (Broadcaster.Broadcast b run).subs id = b.subs id) ∧
    ((Broadcaster.Broadcast b run).subs run.syncId =
      (b.subs run.syncId).map (fun ch => Broadcaster.sendOrDrop ch run)) ∧
    (∀ i : Nat, ∀ ch : Broadcaster.Chan, (b.subs run.syncId)[i]? = some ch →
      (ch.buf.length < ch.cap →
        ((Broadcaster.Broadcast b run).subs run.syncId)[i]? =
          some { ch with buf := ch.buf ++ [ run ] }) ∧
      (¬ ch.buf.length < ch.cap →
        ((Broadcaster.Broadcast b run).subs run.syncId)[i]? = some ch)) := by
  refine ⟨?_, ?_, ?_⟩
  · intro id hid
    simp only [Broadcaster.Broadcast]
    rw [if_neg hid]
  · simp only [Broadcaster.Broadcast, if_true]
  · intro i ch hch
    constructor
    · intro hlt
      simp only [Broadcaster.Broadcast, if_true]
      rw [List.getElem?_map, hch]
      simp only [Option.map_some', Broadcaster.sendOrDrop]
      rw [if_pos hlt]
    · intro hge
      simp only [Broadcaster.Broadcast, if_true]
      rw [List.getElem?_map, hch]
      simp only [Option.map_some', Broadcaster.sendOrDrop]
      rw [if_neg hge]

/-- Witness for C9: broadcasting to a registry with a full subscriber and
a subscriber with spare capacity under the same sync id delivers the run
to the latter only, and leaves other sync ids untouched. -/
theorem C9_witness :
    ((Broadcaster.Broadcast ConcreteData.twoSubRegistry ConcreteData.broadcastRun).subs
      "s")[0]? = some ConcreteData.fullChan ∧
    ((Broadcaster.Broadcast ConcreteData.twoSubRegistry ConcreteData.broadcastRun).subs
      "s")[1]? = some { ConcreteData.emptyChan with buf := [ ConcreteData.broadcastRun ] } ∧
    (Broadcaster.Broadcast ConcreteData.twoSubRegistry ConcreteData.broadcastRun).subs "t" =
      ConcreteData.twoSubRegistry.subs "t" := by
  refine ⟨?_, ?_, ?_⟩
  · exact ((C9_broadcast_send_or_drop ConcreteData.twoSubRegistry
      ConcreteData.broadcastRun).2.2 0 ConcreteData.fullChan (by decide)).2 (by decide)
  · exact ((C9_broadcast_send_or_drop ConcreteData.twoSubRegistry
      ConcreteData.broadcastRun).2.2 1 ConcreteData.emptyChan (by decide)).1 (by decide)
  · exact (C9_broadcast_send_or_drop ConcreteData.twoSubRegistry
      ConcreteData.broadcastRun).1 "t" (by decide)

namespace Matching

/-! ### Cleaning: character-class facts -/

theorem alnumLower_range (c : Char) (h : alnumLower c = true) : '0' ≤ c ∧ c ≤ 'z' := by
  simp only [alnumLower, Bool.or_eq_true, Bool.and_eq_true, decide_eq_true_eq] at h
  rcases h with ⟨h1, h2⟩ | ⟨h1, h2⟩
  · exact ⟨le_trans (by decide) h1, h2⟩
  · exact ⟨h1, le_trans h2 (by decide)⟩

theorem good_le_z (c : Char) (h : alnumLower c = true ∨ c = ' ') : c ≤ 'z' := by
  rcases h with h | h
  · exact (alnumLower_range c h).2
  · rw [h]; decide

theorem alnumLower_not_ws (c : Char) (h : alnumLower c = true) : wsChar c = false := by
  have h0 := (alnumLower_range c h).1
  simp only [wsChar, Bool.or_eq_false_iff, decide_eq_false_iff_not]
  repeat' apply And.intro
  all_goals
    intro he
    rw [he] at h0
    revert h0
    decide

theorem good_ws_iff (c : Char) (h : alnumLower c = true ∨ c = ' ') :
    wsChar c = true ↔ c = ' ' := by
  rcases h with h | h
  · rw [alnumLower_not_ws c h]
    constructor
    · intro h0; cases h0
    · intro h0
      rw [h0] at h
      exact absurd h (by decide)
  · subst h
    simp [wsChar]

theorem good_not_bracket (c : Char) (h : alnumLower c = true ∨ c = ' ') :
    ¬ (c = '(' ∨ c = '[') := by
  rintro (h0 | h0) <;> subst h0 <;> rcases h with h | h <;> revert h <;> decide

/-! ### Cleaning: each stage is the identity on cleaned strings -/

theorem map_id_of_eq {f : Char → Char} (l : Str) (h : ∀ c ∈ l, f c = c) :
    l.map f = l := by
  induction l with
  | nil => rfl
  | cons c cs ih =>
    simp only [List.map_cons]
    rw [h c (List.mem_cons_self c cs), ih (fun d hd => h d (List.mem_cons_of_mem c hd))]

theorem goToLower_eq_self (c : Char) (h : alnumLower c = true ∨ c = ' ') :
    goToLower c = c := by
  unfold goToLower
  rw [if_neg]
  rintro ⟨h1, h2⟩
  rcases h with hg | hg
  · rcases (alnumLower_range c hg) with ⟨h3, _⟩
    simp only [alnumLower, Bool.or_eq_true, Bool.and_eq_true, decide_eq_true_eq] at hg
    rcases hg with ⟨ha, _⟩ | ⟨_, hb⟩
    · exact absurd (le_trans ha h2) (by decide)
    · exact absurd (le_trans h1 hb) (by decide)
  · rw [hg] at h1
    exact absurd h1 (by decide)

theorem deaccent_eq_self (c : Char) (hle : c ≤ 'z') : deaccent c = c := by
  unfold deaccent
  rw [if_neg (by rintro (h | h | h | h | h) <;> (subst h; exact absurd hle (by decide))),
    if_neg (by rintro (h | h | h | h) <;> (subst h; exact absurd hle (by decide))),
    if_neg (by rintro (h | h | h | h) <;> (subst h; exact absurd hle (by decide))),
    if_neg (by rintro (h | h | h | h | h) <;> (subst h; exact absurd hle (by decide))),
    if_neg (by rintro (h | h | h | h) <;> (subst h; exact absurd hle (by decide))),
    if_neg (by rintro h; subst h; exact absurd hle (by decide)),
    if_neg (by rintro h; subst h; exact absurd hle (by decide))]

theorem isMark_eq_false (c : Char) (hle : c ≤ 'z') : isMark c = false := by
  simp only [isMark, Bool.or_eq_false_iff, decide_eq_false_iff_not]
  repeat' apply And.intro
  all_goals
    intro he
    subst he
    exact absurd hle (by decide)

theorem stripDiacritics_id (l : Str) (h : ∀ c ∈ l, alnumLower c = true ∨ c = ' ') :
    stripDiacritics l = l := by
  unfold stripDiacritics
  rw [map_id_of_eq l (fun c hc => deaccent_eq_self c (good_le_z c (h c hc)))]
  rw [List.filter_eq_self.mpr]
  intro a ha
  rw [isMark_eq_false a (good_le_z a (h a ha))]
  rfl

theorem removeFeatGo_id (l : Str) :
    ∀ f : Nat, (∀ c ∈ l, ¬ (c = '(' ∨ c = '[')) → removeFeatGo f l = l := by
  induction l with
  | nil => intro f _; cases f <;> rfl
  | cons c cs ih =>
    intro f h
    cases f with
    | zero => rfl
    | succ n =>
      simp only [removeFeatGo]
      rw [if_neg (h c (List.mem_cons_self c cs)),
        ih n (fun d hd => h d (List.mem_cons_of_mem c hd))]

theorem removeFeat_id (l : Str) (h : ∀ c ∈ l, ¬ (c = '(' ∨ c = '[')) :
    removeFeat l = l :=
  removeFeatGo_id l l.length h

theorem removeTagsGo_id (l : Str) :
    ∀ f : Nat, (∀ c ∈ l, ¬ (c = '(' ∨ c = '[')) → removeTagsGo f l = l := by
  induction l with
  | nil => intro f _; cases f <;> rfl
  | cons c cs ih =>
    intro f h
    cases f with
    | zero => rfl
    | succ n =>
      simp only [removeTagsGo]
      rw [if_neg (h c (List.mem_cons_self c cs)),
        ih n (fun d hd => h d (List.mem_cons_of_mem c hd))]

theorem removeTags_id (l : Str) (h : ∀ c ∈ l, ¬ (c = '(' ∨ c = '[')) :
    removeTags l = l :=
  removeTagsGo_id l l.length h

theorem collapseNonAlnumAux_id (l : Str) :
    ∀ b : Bool, (∀ c ∈ l, alnumLower c = true ∨ wsChar c = true) →
      collapseNonAlnumAux b l = l := by
  induction l with
  | nil => intro b _; rfl
  | cons c cs ih =>
    intro b h
    have hcond : (alnumLower c || wsChar c) = true := by
      rcases h c (List.mem_cons_self c cs) with h0 | h0 <;> simp [h0]
    simp only [collapseNonAlnumAux]
    rw [if_pos hcond, ih false (fun d hd => h d (List.mem_cons_of_mem c hd))]

theorem collapseNonAlnum_id (l : Str)
    (h : ∀ c ∈ l, alnumLower c = true ∨ wsChar c = true) : collapseNonAlnum l = l :=
  collapseNonAlnumAux_id l false h

theorem collapseWSAux_id (l : Str) :
    (∀ c ∈ l, alnumLower c = true ∨ c = ' ') →
    l.Chain' (fun a b => wsChar a = false ∨ wsChar b = false) →
    collapseWSAux false l = l ∧
      ((∀ c, l.head? = some c → wsChar c = false) → collapseWSAux true l = l) := by
  induction l with
  | nil => intro _ _; exact ⟨rfl, fun _ => rfl⟩
  | cons c cs ih =>
    intro hgood hchain
    have hcs_good : ∀ d ∈ cs, alnumLower d = true ∨ d = ' ' := fun d hd =>
      hgood d (List.mem_cons_of_mem c hd)
    have hchain' := (List.chain'_cons'.mp hchain).2
    have hrel := (List.chain'_cons'.mp hchain).1
    obtain ⟨ihf, iht⟩ := ih hcs_good hchain'
    by_cases hws : wsChar c = true
    · have hc : c = ' ' := (good_ws_iff c (hgood c (List.mem_cons_self c cs))).mp hws
      constructor
      · simp only [collapseWSAux]
        rw [if_pos hws, if_neg Bool.false_ne_true, iht]
        · rw [hc]
        · intro d hd
          rcases hrel d (Option.mem_def.mpr hd) with h0 | h0
          · rw [hws] at h0; cases h0
          · exact h0
      · intro hhead
        have h0 := hhead c rfl
        rw [hws] at h0
        cases h0
    · have hwsf : wsChar c = false := by
        cases h0 : wsChar c
        · rfl
        · exact absurd h0 hws
      constructor
      · simp only [collapseWSAux]
        rw [if_neg hws, ihf]
      · intro _
        simp only [collapseWSAux]
        rw [if_neg hws, ihf]

theorem collapseWS_id (l : Str)
    (hgood : ∀ c ∈ l, alnumLower c = true ∨ c = ' ')
    (hchain : l.Chain' (fun a b => wsChar a = false ∨ wsChar b = false)) :
    collapseWS l = l :=
  (collapseWSAux_id l hgood hchain).1

theorem dropWhile_eq_self_of_head (p : Char → Bool) (l : Str)
    (h : ∀ c, l.head? = some c → p c = false) : l.dropWhile p = l := by
  cases l with
  | nil => rfl
  | cons c cs =>
    rw [List.dropWhile_cons, h c rfl]
    simp

theorem trimSpaces_id (l : Str)
    (hhead : ∀ c, l.head? = some c → wsChar c = false)
    (hlast : ∀ c, l.getLast? = some c → wsChar c = false) :
    trimSpaces l = l := by
  unfold trimSpaces
  rw [dropWhile_eq_self_of_head _ _ hhead]
  rw [dropWhile_eq_self_of_head _ _ ?_, List.reverse_reverse]
  intro c hc
  rw [List.head?_reverse] at hc
  exact hlast c hc

/-- A string that is already in cleaned form — only lowercase
alphanumerics and single interior spaces, trimmed — is a fixed point of
`Clean`. -/
theorem clean_id_of_cleaned (l : Str)
    (hchars : ∀ c ∈ l, alnumLower c = true ∨ c = ' ')
    (hchain : l.Chain' (fun a b => wsChar a = false ∨ wsChar b = false))
    (hhead : ∀ c, l.head? = some c → wsChar c = false)
    (hlast : ∀ c, l.getLast? = some c → wsChar c = false) :
    Clean l = l := by
  unfold Clean
  rw [map_id_of_eq l (fun c hc => goToLower_eq_self c (hchars c hc)),
    stripDiacritics_id l hchars,
    removeFeat_id l (fun c hc => good_not_bracket c (hchars c hc)),
    removeTags_id l (fun c hc => good_not_bracket c (hchars c hc)),
    collapseNonAlnum_id l (fun c hc => (hchars c hc).imp id
      (fun h => by rw [h]; decide)),
    collapseWS_id l hchars hchain,
    trimSpaces_id l hhead hlast]

end Matching

namespace Matching

/-! ### Cleaning: shape of the output -/

theorem collapseNonAlnumAux_chars (l : Str) :
    ∀ (b : Bool), ∀ c ∈ collapseNonAlnumAux b l, alnumLower c = true ∨ wsChar c = true := by
  induction l with
  | nil => intro b c hc; cases hc
  | cons d ds ih =>
    intro b c hc
    simp only [collapseNonAlnumAux] at hc
    by_cases hd : (alnumLower d || wsChar d) = true
    · rw [if_pos hd] at hc
      rcases List.mem_cons.mp hc with h | h
      · subst h
        rcases Bool.or_eq_true _ _ ▸ hd with h0 | h0
        · exact Or.inl h0
        · exact Or.inr h0
      · exact ih false c h
    · rw [if_neg hd] at hc
      cases b with
      | true =>
        rw [if_pos rfl] at hc
        exact ih true c hc
      | false =>
        rw [if_neg Bool.false_ne_true] at hc
        rcases List.mem_cons.mp hc with h | h
        · subst h; right; decide
        · exact ih true c h

theorem collapseWSAux_chars (l : Str) :
    ∀ (b : Bool), ∀ c ∈ collapseWSAux b l, c = ' ' ∨ (c ∈ l ∧ wsChar c = false) := by
  induction l with
  | nil => intro b c hc; cases hc
  | cons d ds ih =>
    intro b c hc
    simp only [collapseWSAux] at hc
    by_cases hd : wsChar d = true
    · rw [if_pos hd] at hc
      cases b with
      | true =>
        rw [if_pos rfl] at hc
        rcases ih true c hc with h | ⟨h1, h2⟩
        · exact Or.inl h
        · exact Or.inr ⟨List.mem_cons_of_mem d h1, h2⟩
      | false =>
        rw [if_neg Bool.false_ne_true] at hc
        rcases List.mem_cons.mp hc with h | h
        · exact Or.inl h
        · rcases ih true c h with h0 | ⟨h1, h2⟩
          · exact Or.inl h0
          · exact Or.inr ⟨List.mem_cons_of_mem d h1, h2⟩
    · rw [if_neg hd] at hc
      have hdf : wsChar d = false := by
        cases h0 : wsChar d
        · rfl
        · exact absurd h0 hd
      rcases List.mem_cons.mp hc with h | h
      · subst h; exact Or.inr ⟨List.mem_cons_self c ds, hdf⟩
      · rcases ih false c h with h0 | ⟨h1, h2⟩
        · exact Or.inl h0
        · exact Or.inr ⟨List.mem_cons_of_mem d h1, h2⟩

theorem collapseWSAux_head_true (l : Str) :
    ∀ c, (collapseWSAux true l).head? = some c → wsChar c = false := by
  induction l with
  | nil => intro c hc; cases hc
  | cons d ds ih =>
    intro c hc
    simp only [collapseWSAux] at hc
    by_cases hd : wsChar d = true
    · rw [if_pos hd, if_true] at hc
      exact ih c hc
    · rw [if_neg hd] at hc
      have hdf : wsChar d = false := by
        cases h0 : wsChar d
        · rfl
        · exact absurd h0 hd
      rw [List.head?_cons, Option.some.injEq] at hc
      rw [← hc]
      exact hdf

theorem collapseWSAux_chain (l : Str) :
    ∀ (b : Bool), (collapseWSAux b l).Chain'
      (fun a b => wsChar a = false ∨ wsChar b = false) := by
  induction l with
  | nil => intro b; exact List.chain'_nil
  | cons d ds ih =>
    intro b
    simp only [collapseWSAux]
    by_cases hd : wsChar d = true
    · rw [if_pos hd]
      cases b with
      | true =>
        rw [if_pos rfl]
        exact ih true
      | false =>
        rw [if_neg Bool.false_ne_true]
        refine List.chain'_cons'.mpr ⟨?_, ih true⟩
        intro y hy
        exact Or.inr (collapseWSAux_head_true ds y (Option.mem_def.mp hy))
    · rw [if_neg hd]
      have hdf : wsChar d = false := by
        cases h0 : wsChar d
        · rfl
        · exact absurd h0 hd
      refine List.chain'_cons'.mpr ⟨?_, ih false⟩
      intro y _
      exact Or.inl hdf

theorem trimSpaces_chars (l : Str) : ∀ c ∈ trimSpaces l, c ∈ l := by
  intro c hc
  unfold trimSpaces at hc
  rw [List.mem_reverse] at hc
  have h1 := (List.dropWhile_sublist _).subset hc
  rw [List.mem_reverse] at h1
  exact (List.dropWhile_sublist _).subset h1

theorem trimSpaces_chain (l : Str)
    (h : l.Chain' (fun a b => wsChar a = false ∨ wsChar b = false)) :
    (trimSpaces l).Chain' (fun a b => wsChar a = false ∨ wsChar b = false) := by
  unfold trimSpaces
  have h1 := h.suffix (List.dropWhile_suffix (fun c => wsChar c))
  have h2 : ((l.dropWhile (fun c => wsChar c)).reverse).Chain'
      (fun a b => wsChar a = false ∨ wsChar b = false) := by
    rw [List.chain'_reverse]
    exact h1.imp (fun _ _ hab => Or.symm hab)
  have h3 := h2.suffix (List.dropWhile_suffix (fun c => wsChar c))
  rw [List.chain'_reverse]
  exact h3.imp (fun _ _ hab => Or.symm hab)

theorem trimSpaces_last (l : Str) :
    ∀ c, (trimSpaces l).getLast? = some c → wsChar c = false := by
  intro c hc
  unfold trimSpaces at hc
  rw [List.getLast?_reverse] at hc
  have h0 := List.head?_dropWhile_not (fun c => wsChar c)
    ((l.dropWhile (fun c => wsChar c)).reverse)
  rw [hc] at h0
  exact h0

theorem trimSpaces_head (l : Str) :
    ∀ c, (trimSpaces l).head? = some c → wsChar c = false := by
  intro c hc
  unfold trimSpaces at hc
  rw [List.head?_reverse] at hc
  obtain ⟨t, ht⟩ := List.dropWhile_suffix (l := (l.dropWhile (fun c => wsChar c)).reverse)
    (fun c => wsChar c)
  have hne : (l.dropWhile (fun c => wsChar c)).reverse.dropWhile (fun c => wsChar c) ≠ [] := by
    intro h0
    rw [h0] at hc
    cases hc
  have hlast : ((l.dropWhile (fun c => wsChar c)).reverse).getLast? = some c := by
    rw [← ht, List.getLast?_append_of_ne_nil _ hne, hc]
  rw [List.getLast?_reverse] at hlast
  have h0 := List.head?_dropWhile_not (fun c => wsChar c) l
  rw [hlast] at h0
  exact h0

/-- The output of `Clean` is in cleaned form: only lowercase alphanumerics
and spaces, no two adjacent whitespace characters, and no leading or
trailing whitespace. -/
theorem clean_cleaned (u : Str) :
    (∀ c ∈ Clean u, alnumLower c = true ∨ c = ' ') ∧
    (Clean u).Chain' (fun a b => wsChar a = false ∨ wsChar b = false) ∧
    (∀ c, (Clean u).head? = some c → wsChar c = false) ∧
    (∀ c, (Clean u).getLast? = some c → wsChar c = false) := by
  unfold Clean collapseWS collapseNonAlnum
  refine ⟨?_, trimSpaces_chain _ (collapseWSAux_chain _ false), trimSpaces_head _,
    trimSpaces_last _⟩
  intro c hc
  have h1 := trimSpaces_chars _ c hc
  rcases collapseWSAux_chars _ false c h1 with h | ⟨hm, hws⟩
  · exact Or.inr h
  · rcases collapseNonAlnumAux_chars _ false c hm with ha | hw
    · exact Or.inl ha
    · rw [hw] at hws
      cases hws

end Matching

/-- C7: `Clean` is idempotent — its output is already lowercase
alphanumerics with single interior spaces and no leading/trailing
whitespace, so a second application changes nothing:
`Clean (Clean s) = Clean s` for every input string. -/
theorem C7_clean_idempotent (s : Str) :
    Matching.Clean (Matching.Clean s) = Matching.Clean s := by
  obtain ⟨hchars, hchain, hhead, hlast⟩ := Matching.clean_cleaned s
  exact Matching.clean_id_of_cleaned _ hchars hchain hhead hlast
